import Mathlib

/-!
Verification of the DTW-KNN core specified for the sktime tutorial repository.

The repository itself is a tutorial notebook (`examples/sktime_tutorial.ipynb`)
that only calls an external library (`KNeighborsTimeSeriesClassifier`,
`accuracy_score`); the algorithmic core (DTW distance + k-NN search) is not
present in the source tree.  Following the specification, each operation below
is therefore modelled from the spec's own words and verified against the
claimed properties.

Series are modelled as lists of rationals (exact arithmetic in place of
floating point), `+infinity` cells of the DTW cost grid as `⊤ : WithTop ℚ`,
and the final square root lands in `ℝ`.
-/

namespace DtwKnn

/-- The error kinds of §7: `InvalidInput`, `NotFittedError`,
`WindowConstraintError`. -/
inductive SpecError where
  | invalidInput : SpecError
  | notFitted : SpecError
  | windowConstraint : SpecError
deriving DecidableEq, Repr

/-- Modelled from the spec (§4.1): the pointwise cost is the squared
difference of two samples. -/
def sqDiff (a b : ℚ) : ℚ := (a - b) ^ 2

/-- Modelled from the spec (§4.1): a cell `(i, j)` of the cost grid is inside
the warping window `w` when `|i - j| ≤ w`; every cell is inside when no
window is set. -/
def windowOK (w : Option ℕ) (i j : ℕ) : Bool :=
  match w with
  | none => true
  | some wv => Nat.dist i j ≤ wv

/-- Modelled from the spec (§4.1): the pointwise cost charged at grid cell
`(i, j)` (`1`-based), i.e. `cost(A[i-1], B[j-1])`. -/
def cellCost (A B : List ℚ) (i j : ℕ) : ℚ :=
  sqDiff (A.getD (i - 1) 0) (B.getD (j - 1) 0)

/-- Modelled from the spec (§4.1): the DTW cost grid `D` of size
`(m+1) × (n+1)`; `D[0][0] = 0`, all other border cells `+infinity`,
`D[i][j] = cost(A[i-1], B[j-1]) + min(D[i-1][j], D[i][j-1], D[i-1][j-1])`
for cells inside the warping window, `+infinity` outside the window. -/
def dtwGrid (A B : List ℚ) (w : Option ℕ) : ℕ → ℕ → WithTop ℚ
  | 0, 0 => 0
  | 0, _ + 1 => ⊤
  | _ + 1, 0 => ⊤
  | i + 1, j + 1 =>
    if windowOK w (i + 1) (j + 1) then
      (cellCost A B (i + 1) (j + 1) : WithTop ℚ) +
        min (dtwGrid A B w i (j + 1)) (min (dtwGrid A B w (i + 1) j) (dtwGrid A B w i j))
    else ⊤
termination_by i j => i + j
decreasing_by all_goals omega

/-- Modelled from the spec (§4.1): a warping window is admissible for series
lengths `m`, `n` when it is at least `|m - n|` (or absent). -/
def windowAdmissible (w : Option ℕ) (m n : ℕ) : Bool :=
  match w with
  | none => true
  | some wv => Nat.dist m n ≤ wv

/-- Modelled from the spec (§4.1): the squared-cost accumulation of the DTW
distance, i.e. `D[m][n]` after input validation: an empty series is
`InvalidInput`, a window narrower than `|m - n|` is the window-constraint
error. -/
def dtwSq (A B : List ℚ) (w : Option ℕ) : Except SpecError (WithTop ℚ) :=
  if A.length = 0 ∨ B.length = 0 then .error .invalidInput
  else if windowAdmissible w A.length B.length = false then .error .windowConstraint
  else .ok (dtwGrid A B w A.length B.length)

/-- Modelled from the spec (§4.1): the DTW distance function; the returned
value is `sqrt(D[m][n])` (squared-then-sqrt accumulation). -/
noncomputable def dtwDist (A B : List ℚ) (w : Option ℕ) : Except SpecError ℝ :=
  (dtwSq A B w).map fun v => Real.sqrt ((v.untop' 0 : ℚ) : ℝ)

/-- Modelled from the spec (glossary, §4.1): a warping path aligning two
series, recorded as its trace through the (1-based) cost-grid cells: it
starts at cell `(1,1)` and moves by unit steps right, down, or diagonally. -/
inductive WPath : ℕ → ℕ → Type where
  | start : WPath 1 1
  | right {i j : ℕ} : WPath i j → WPath i (j + 1)
  | down {i j : ℕ} : WPath i j → WPath (i + 1) j
  | diag {i j : ℕ} : WPath i j → WPath (i + 1) (j + 1)

/-- Modelled from the spec (§4.1): the cumulative pointwise cost of a warping
path, each visited cell `(i, j)` contributing `cost(A[i-1], B[j-1])`. -/
def WPath.cost (A B : List ℚ) : ∀ {i j : ℕ}, WPath i j → ℚ
  | _, _, .start => cellCost A B 1 1
  | _, _, @WPath.right i j p => WPath.cost A B p + cellCost A B i (j + 1)
  | _, _, @WPath.down i j p => WPath.cost A B p + cellCost A B (i + 1) j
  | _, _, @WPath.diag i j p => WPath.cost A B p + cellCost A B (i + 1) (j + 1)

/-- Modelled from the spec (§3): a labeled example: a series paired with a
class label drawn from a finite discrete domain (labels are `ℕ` here, so the
label domain is uniform by typing). -/
structure LabeledExample where
  series : List ℚ
  label : ℕ
deriving DecidableEq, Repr

/-- Modelled from the spec (§3, §4.2): the state of a fitted classifier: the
reference set, in insertion order, and the neighbor count `k`. -/
structure FittedState where
  refs : List LabeledExample
  k : ℕ
deriving DecidableEq, Repr

/-- Modelled from the spec (§2): the DTW-KNN classifier object; `fitted` is
`none` until a `fit` call succeeds. -/
structure KNeighborsTimeSeriesClassifier where
  fitted : Option FittedState
deriving DecidableEq, Repr

/-- Modelled from the spec (§4.2): `fit` validates the examples and `k`,
then stores them as the new reference set, fully replacing any prior state.
It fails with `InvalidInput` when the collection is empty, `k < 1`, or
`k` exceeds the number of examples. -/
def fit (_c : KNeighborsTimeSeriesClassifier) (examples : List LabeledExample)
    (k : ℕ) : Except SpecError KNeighborsTimeSeriesClassifier :=
  if examples = [] ∨ k < 1 ∨ examples.length < k then .error .invalidInput
  else .ok ⟨some ⟨examples, k⟩⟩

/-- Modelled from the spec (§4.3): one reference example as seen by a
prediction query: its distance to the query, its insertion index in the
reference set, and its label. -/
structure Scored (K : Type) where
  d : K
  idx : ℕ
  lbl : ℕ
deriving DecidableEq, Repr

/-- Modelled from the spec (§4.3): every reference example scored against
the query, in insertion order, indices starting at `i`.  The distance
function is a parameter; the spec's instance is the DTW distance of §4.1. -/
def scoreRefs {K : Type} (dist : List ℚ → List ℚ → K) :
    List LabeledExample → ℕ → List ℚ → List (Scored K)
  | [], _, _ => []
  | e :: es, i, q => ⟨dist q e.series, i, e.label⟩ :: scoreRefs dist es (i + 1) q

/-- Modelled from the spec (§4.3): the deterministic neighbor order: smaller
distance first, ties by original insertion index (first-seen wins). -/
def keyLE {K : Type} [LinearOrder K] (x y : Scored K) : Prop :=
  x.d < y.d ∨ (x.d = y.d ∧ x.idx ≤ y.idx)

instance {K : Type} [LinearOrder K] : DecidableRel (@keyLE K _) := fun x y => by
  unfold keyLE
  infer_instance

instance {K : Type} [LinearOrder K] : IsTotal (Scored K) keyLE where
  total x y := by
    unfold keyLE
    rcases lt_trichotomy x.d y.d with h | h | h
    · exact Or.inl (Or.inl h)
    · rcases Nat.le_total x.idx y.idx with h2 | h2
      · exact Or.inl (Or.inr ⟨h, h2⟩)
      · exact Or.inr (Or.inr ⟨h.symm, h2⟩)
    · exact Or.inr (Or.inl h)

instance {K : Type} [LinearOrder K] : IsTrans (Scored K) keyLE where
  trans x y z hxy hyz := by
    unfold keyLE at *
    rcases hxy with h1 | ⟨h1, h1'⟩ <;> rcases hyz with h2 | ⟨h2, h2'⟩
    · exact Or.inl (lt_trans h1 h2)
    · exact Or.inl (h2 ▸ h1)
    · exact Or.inl (h1 ▸ h2)
    · exact Or.inr ⟨h1.trans h2, le_trans h1' h2'⟩

/-- Modelled from the spec (§4.3): the number of neighbors voting for label
`L`. -/
def voteCount {K : Type} (nbrs : List (Scored K)) (L : ℕ) : ℕ :=
  (nbrs.filter fun x => x.lbl = L).length

/-- Modelled from the spec (§4.3): the total distance of the neighbors
carrying label `L`. -/
def distSum {K : Type} [LinearOrderedField K] (nbrs : List (Scored K)) (L : ℕ) : K :=
  ((nbrs.filter fun x => x.lbl = L).map Scored.d).sum

/-- Modelled from the spec (§4.3): the average distance of the neighbors
carrying label `L`. -/
def avgDist {K : Type} [LinearOrderedField K] (nbrs : List (Scored K)) (L : ℕ) : K :=
  distSum nbrs L / (voteCount nbrs L : K)

/-- Modelled from the spec (§4.3): the first position of label `L` in the
reference set (insertion order). -/
def firstIdxOf (refs : List LabeledExample) (L : ℕ) : ℕ :=
  refs.findIdx fun e => e.label = L

/-- Modelled from the spec (§4.3): label `a` beats label `b` in the vote:
strictly more votes; or equal votes and a strictly smaller average distance;
or equal again and an earlier first occurrence in the reference set. -/
def VoteBeats {K : Type} [LinearOrderedField K] (refs : List LabeledExample)
    (nbrs : List (Scored K)) (a b : ℕ) : Prop :=
  voteCount nbrs b < voteCount nbrs a ∨
    (voteCount nbrs a = voteCount nbrs b ∧
      (avgDist nbrs a < avgDist nbrs b ∨
        (avgDist nbrs a = avgDist nbrs b ∧ firstIdxOf refs a < firstIdxOf refs b)))

instance {K : Type} [LinearOrderedField K] (refs : List LabeledExample)
    (nbrs : List (Scored K)) : DecidableRel (VoteBeats refs nbrs) := fun a b => by
  unfold VoteBeats
  infer_instance

/-- Modelled from the spec (§4.3): deterministic choice of the best
candidate under a strict preference relation, scanning the candidates in
order. -/
def pickLabel (lt : ℕ → ℕ → Prop) [DecidableRel lt] (c : ℕ) (cs : List ℕ) : ℕ :=
  cs.foldl (fun best x => if lt x best then x else best) c

/-- Modelled from the spec (§4.3): the `k` selected neighbors: the scored
references sorted stably by (distance, insertion index), truncated to `k`. -/
def neighbors {K : Type} [LinearOrder K] (dist : List ℚ → List ℚ → K)
    (refs : List LabeledExample) (k : ℕ) (q : List ℚ) : List (Scored K) :=
  (List.insertionSort keyLE (scoreRefs dist refs 0 q)).take k

/-- Modelled from the spec (§4.3): the label elected by the selected
neighbors: the best candidate label under `VoteBeats`, candidates scanned
deterministically; `0` only in the unreachable no-neighbor case. -/
def electLabel {K : Type} [LinearOrderedField K] (refs : List LabeledExample)
    (nbrs : List (Scored K)) : ℕ :=
  match (nbrs.map Scored.lbl).dedup with
  | [] => 0
  | c :: cs => pickLabel (VoteBeats refs nbrs) c cs

/-- Modelled from the spec (§4.3): prediction against a fitted reference
set: score every reference, sort stably by (distance, insertion index),
keep the `k` nearest, and elect the winning label among them. -/
def classify {K : Type} [LinearOrderedField K] (dist : List ℚ → List ℚ → K)
    (refs : List LabeledExample) (k : ℕ) (q : List ℚ) : ℕ :=
  electLabel refs (neighbors dist refs k q)

/-- Modelled from the spec (§4.3): `predict` on a single query: fails with
`NotFittedError` before any successful `fit`, with `InvalidInput` on an
empty query, and otherwise classifies the query against the reference set. -/
def predict {K : Type} [LinearOrderedField K] (dist : List ℚ → List ℚ → K)
    (c : KNeighborsTimeSeriesClassifier) (q : List ℚ) : Except SpecError ℕ :=
  match c.fitted with
  | none => .error .notFitted
  | some st =>
    if q = [] then .error .invalidInput
    else .ok (classify dist st.refs st.k q)

/-- Modelled from the spec (§4.4): batch prediction is the element-wise,
order-preserving application of single prediction, failing on the first
failing element. -/
def predictBatch {K : Type} [LinearOrderedField K] (dist : List ℚ → List ℚ → K)
    (c : KNeighborsTimeSeriesClassifier) :
    List (List ℚ) → Except SpecError (List ℕ)
  | [] => .ok []
  | q :: qs =>
    match predict dist c q with
    | .error e => .error e
    | .ok l =>
      match predictBatch dist c qs with
      | .error e => .error e
      | .ok ls => .ok (l :: ls)

/-- Modelled from the spec (§4.4): the number of occurrences of label `L` in
the reference set. -/
def labelCount (refs : List LabeledExample) (L : ℕ) : ℕ :=
  (refs.filter fun e => e.label = L).length

/-- The spec's §4.3 selection property: `sel` consists of `k` of the scored
reference examples (all of them when fewer than `k` exist), without
repetition, and every selected example beats every unselected one: strictly
smaller distance, or equal distance and an earlier insertion index
(first-seen wins). -/
def IsNearestSelection {K : Type} [LinearOrder K] (scored : List (Scored K))
    (k : ℕ) (sel : List (Scored K)) : Prop :=
  sel.length = min k scored.length ∧ (∀ x ∈ sel, x ∈ scored) ∧ sel.Nodup ∧
    ∀ x ∈ sel, ∀ y ∈ scored, y ∉ sel → x.d < y.d ∨ (x.d = y.d ∧ x.idx < y.idx)

/-- The spec's §4.3 vote property: the predicted label is a neighbor label
that beats every other neighbor label: highest vote count, ties by smallest
average distance among the tied labels' neighbors, then by earliest first
occurrence in the reference set. -/
def IsVoteWinner {K : Type} [LinearOrderedField K] (refs : List LabeledExample)
    (nbrs : List (Scored K)) (L : ℕ) : Prop :=
  L ∈ nbrs.map Scored.lbl ∧
    ∀ M ∈ nbrs.map Scored.lbl, M ≠ L → VoteBeats refs nbrs L M

/-- Modelled from the spec (§6, the delegated scorer): sklearn's
`accuracy_score(y_true, y_pred)`: the mean of the elementwise equality
indicator over the two label sequences; mismatched lengths are rejected. -/
def accuracy_score (ytrue ypred : List ℕ) : Except SpecError ℚ :=
  if ytrue.length ≠ ypred.length then .error .invalidInput
  else
    .ok ((((ytrue.zip ypred).map fun p => if p.1 = p.2 then (1 : ℚ) else 0).sum) /
      (ytrue.length : ℚ))

/-- Modelled from the spec (§4.4): the reference scoring definition: the
fraction of positions where the prediction equals the true label; fails with
`InvalidInput` when the sequences differ in count. -/
def scoreAccuracy (preds trues : List ℕ) : Except SpecError ℚ :=
  if preds.length ≠ trues.length then .error .invalidInput
  else
    .ok ((((preds.zip trues).countP fun p => p.1 = p.2) : ℚ) / (preds.length : ℚ))

lemma dtwGrid_zero_zero (A B : List ℚ) (w : Option ℕ) : dtwGrid A B w 0 0 = 0 := by
  simp [dtwGrid]

lemma dtwGrid_zero_succ (A B : List ℚ) (w : Option ℕ) (j : ℕ) :
    dtwGrid A B w 0 (j + 1) = ⊤ := by
  simp [dtwGrid]

lemma dtwGrid_succ_zero (A B : List ℚ) (w : Option ℕ) (i : ℕ) :
    dtwGrid A B w (i + 1) 0 = ⊤ := by
  simp [dtwGrid]

lemma dtwGrid_succ_succ (A B : List ℚ) (w : Option ℕ) (i j : ℕ) :
    dtwGrid A B w (i + 1) (j + 1) =
      if windowOK w (i + 1) (j + 1) then
        (cellCost A B (i + 1) (j + 1) : WithTop ℚ) +
          min (dtwGrid A B w i (j + 1)) (min (dtwGrid A B w (i + 1) j) (dtwGrid A B w i j))
      else ⊤ := by
  rw [dtwGrid]

lemma windowOK_symm (w : Option ℕ) (i j : ℕ) : windowOK w j i = windowOK w i j := by
  cases w <;> simp [windowOK, Nat.dist_comm]

lemma cellCost_symm (A B : List ℚ) (i j : ℕ) : cellCost B A j i = cellCost A B i j := by
  simp [cellCost, sqDiff]; ring

lemma dtwGrid_symm (A B : List ℚ) (w : Option ℕ) :
    ∀ N i j, i + j ≤ N → dtwGrid B A w j i = dtwGrid A B w i j := by
  intro N
  induction N with
  | zero =>
    intro i j h
    obtain ⟨rfl, rfl⟩ : i = 0 ∧ j = 0 := by omega
    rw [dtwGrid_zero_zero, dtwGrid_zero_zero]
  | succ N ih =>
    intro i j h
    match i, j with
    | 0, 0 => rw [dtwGrid_zero_zero, dtwGrid_zero_zero]
    | 0, j + 1 => rw [dtwGrid_zero_succ, dtwGrid_succ_zero]
    | i + 1, 0 => rw [dtwGrid_zero_succ, dtwGrid_succ_zero]
    | i + 1, j + 1 =>
      rw [dtwGrid_succ_succ, dtwGrid_succ_succ, windowOK_symm, cellCost_symm]
      rw [ih (i + 1) j (by omega), ih i (j + 1) (by omega), ih i j (by omega)]
      rw [min_left_comm]

lemma windowOK_mono {w1 w2 : ℕ} (h : w1 ≤ w2) {i j : ℕ}
    (hok : windowOK (some w1) i j = true) : windowOK (some w2) i j = true := by
  simp only [windowOK, decide_eq_true_eq] at hok ⊢
  omega

lemma dtwGrid_window_mono (A B : List ℚ) {w1 w2 : ℕ} (h : w1 ≤ w2) :
    ∀ N i j, i + j ≤ N → dtwGrid A B (some w2) i j ≤ dtwGrid A B (some w1) i j := by
  intro N
  induction N with
  | zero =>
    intro i j hij
    obtain ⟨rfl, rfl⟩ : i = 0 ∧ j = 0 := by omega
    rw [dtwGrid_zero_zero, dtwGrid_zero_zero]
  | succ N ih =>
    intro i j hij
    match i, j with
    | 0, 0 => rw [dtwGrid_zero_zero, dtwGrid_zero_zero]
    | 0, j + 1 => rw [dtwGrid_zero_succ, dtwGrid_zero_succ]
    | i + 1, 0 => rw [dtwGrid_succ_zero, dtwGrid_succ_zero]
    | i + 1, j + 1 =>
      rw [dtwGrid_succ_succ, dtwGrid_succ_succ]
      by_cases h1 : windowOK (some w1) (i + 1) (j + 1) = true
      · rw [if_pos h1, if_pos (windowOK_mono h h1)]
        refine add_le_add_left ?_ _
        exact min_le_min (ih i (j + 1) (by omega))
          (min_le_min (ih (i + 1) j (by omega)) (ih i j (by omega)))
      · rw [if_neg h1]
        exact le_top

lemma dtwGrid_ne_top (A B : List ℚ) (w : Option ℕ) :
    ∀ N i j, i + 1 + (j + 1) ≤ N → windowOK w (i + 1) (j + 1) = true →
      dtwGrid A B w (i + 1) (j + 1) ≠ ⊤ := by
  intro N
  induction N with
  | zero => intro i j hij; omega
  | succ N ih =>
    intro i j hij hok
    rw [dtwGrid_succ_succ, if_pos hok]
    match i, j with
    | 0, 0 =>
      rw [dtwGrid_zero_succ, dtwGrid_succ_zero, dtwGrid_zero_zero]
      refine WithTop.add_ne_top.mpr ⟨WithTop.coe_ne_top, ?_⟩
      intro hc
      simp [min_eq_top] at hc
    | 0, j + 1 =>
      have hok' : windowOK w 1 (j + 1) = true := by
        cases w with
        | none => rfl
        | some wv =>
          simp only [windowOK, decide_eq_true_eq, Nat.dist] at hok ⊢
          omega
      have hne : dtwGrid A B w 1 (j + 1) ≠ ⊤ := ih 0 j (by omega) hok'
      refine WithTop.add_ne_top.mpr ⟨WithTop.coe_ne_top, ?_⟩
      refine ne_top_of_le_ne_top hne ?_
      exact le_trans (min_le_right _ _) (min_le_left _ _)
    | i + 1, 0 =>
      have hok' : windowOK w (i + 1) 1 = true := by
        cases w with
        | none => rfl
        | some wv =>
          simp only [windowOK, decide_eq_true_eq, Nat.dist] at hok ⊢
          omega
      have hne : dtwGrid A B w (i + 1) 1 ≠ ⊤ := ih i 0 (by omega) hok'
      refine WithTop.add_ne_top.mpr ⟨WithTop.coe_ne_top, ?_⟩
      exact ne_top_of_le_ne_top hne (min_le_left _ _)
    | i + 1, j + 1 =>
      have hok' : windowOK w (i + 1) (j + 1) = true := by
        cases w with
        | none => rfl
        | some wv =>
          simp only [windowOK, decide_eq_true_eq, Nat.dist] at hok ⊢
          omega
      have hne : dtwGrid A B w (i + 1) (j + 1) ≠ ⊤ := ih i j (by omega) hok'
      refine WithTop.add_ne_top.mpr ⟨WithTop.coe_ne_top, ?_⟩
      refine ne_top_of_le_ne_top hne ?_
      exact le_trans (min_le_right _ _) (min_le_right _ _)

lemma WPath.pos : ∀ {i j : ℕ}, WPath i j → 1 ≤ i ∧ 1 ≤ j
  | _, _, .start => ⟨le_refl 1, le_refl 1⟩
  | _, _, .right p => ⟨p.pos.1, le_trans p.pos.2 (Nat.le_succ _)⟩
  | _, _, .down p => ⟨le_trans p.pos.1 (Nat.le_succ _), p.pos.2⟩
  | _, _, .diag p => ⟨le_trans p.pos.1 (Nat.le_succ _), le_trans p.pos.2 (Nat.le_succ _)⟩

lemma dtwGrid_one_one (A B : List ℚ) :
    dtwGrid A B none 1 1 = (cellCost A B 1 1 : WithTop ℚ) := by
  rw [show (1 : ℕ) = 0 + 1 from rfl, dtwGrid_succ_succ]
  rw [dtwGrid_zero_succ, dtwGrid_succ_zero, dtwGrid_zero_zero]
  simp [windowOK]

lemma windowOK_none (i j : ℕ) : windowOK none i j = true := rfl

lemma dtwGrid_le_pathCost (A B : List ℚ) :
    ∀ {i j : ℕ} (p : WPath i j), dtwGrid A B none i j ≤ ((p.cost A B : ℚ) : WithTop ℚ) := by
  intro i j p
  induction p with
  | start => rw [dtwGrid_one_one, WPath.cost]
  | @right i j p ih =>
    have hi := p.pos.1
    obtain ⟨i', rfl⟩ : ∃ i', i = i' + 1 := ⟨i - 1, by omega⟩
    rw [dtwGrid_succ_succ, if_pos (windowOK_none _ _), WPath.cost, WithTop.coe_add, add_comm]
    refine add_le_add_right ?_ _
    exact le_trans (le_trans (min_le_right _ _) (min_le_left _ _)) ih
  | @down i j p ih =>
    have hj := p.pos.2
    obtain ⟨j', rfl⟩ : ∃ j', j = j' + 1 := ⟨j - 1, by omega⟩
    rw [dtwGrid_succ_succ, if_pos (windowOK_none _ _), WPath.cost, WithTop.coe_add, add_comm]
    refine add_le_add_right ?_ _
    exact le_trans (min_le_left _ _) ih
  | @diag i j p ih =>
    rw [dtwGrid_succ_succ, if_pos (windowOK_none _ _), WPath.cost, WithTop.coe_add, add_comm]
    refine add_le_add_right ?_ _
    exact le_trans (le_trans (min_le_right _ _) (min_le_right _ _)) ih

lemma exists_wpath_eq_dtwGrid (A B : List ℚ) :
    ∀ N i j, i + 1 + (j + 1) ≤ N →
      ∃ p : WPath (i + 1) (j + 1),
        ((p.cost A B : ℚ) : WithTop ℚ) = dtwGrid A B none (i + 1) (j + 1) := by
  intro N
  induction N with
  | zero => intro i j h; omega
  | succ N ih =>
    intro i j hij
    rw [dtwGrid_succ_succ, if_pos (windowOK_none _ _)]
    match i, j with
    | 0, 0 =>
      refine ⟨WPath.start, ?_⟩
      rw [dtwGrid_zero_succ, dtwGrid_succ_zero, dtwGrid_zero_zero]
      simp [WPath.cost]
    | 0, j + 1 =>
      obtain ⟨p, hp⟩ := ih 0 j (by omega)
      refine ⟨p.right, ?_⟩
      rw [dtwGrid_zero_succ, dtwGrid_zero_succ, WPath.cost, WithTop.coe_add, hp]
      simp [add_comm]
    | i + 1, 0 =>
      obtain ⟨p, hp⟩ := ih i 0 (by omega)
      refine ⟨p.down, ?_⟩
      rw [dtwGrid_succ_zero, dtwGrid_succ_zero, WPath.cost, WithTop.coe_add, hp]
      simp [add_comm]
    | i + 1, j + 1 =>
      obtain ⟨pX, hX⟩ := ih i (j + 1) (by omega)
      obtain ⟨pY, hY⟩ := ih (i + 1) j (by omega)
      obtain ⟨pZ, hZ⟩ := ih i j (by omega)
      rcases min_cases (dtwGrid A B none (i + 1) (j + 1 + 1))
          (min (dtwGrid A B none (i + 1 + 1) (j + 1)) (dtwGrid A B none (i + 1) (j + 1))) with
        ⟨hm, _⟩ | ⟨hm, _⟩
      · refine ⟨pX.down, ?_⟩
        rw [WPath.cost, WithTop.coe_add, hm, ← hX, add_comm]
      · rcases min_cases (dtwGrid A B none (i + 1 + 1) (j + 1))
            (dtwGrid A B none (i + 1) (j + 1)) with ⟨hm2, _⟩ | ⟨hm2, _⟩
        · refine ⟨pY.right, ?_⟩
          rw [WPath.cost, WithTop.coe_add, hm, hm2, ← hY, add_comm]
        · refine ⟨pZ.diag, ?_⟩
          rw [WPath.cost, WithTop.coe_add, hm, hm2, ← hZ, add_comm]

lemma length_ne_zero_of_ne_nil {α : Type} {A : List α} (hA : A ≠ []) : A.length ≠ 0 :=
  fun h => hA (List.length_eq_zero.mp h)

lemma dtwSq_ok (A B : List ℚ) (w : Option ℕ) (hA : A ≠ []) (hB : B ≠ [])
    (hw : windowAdmissible w A.length B.length = true) :
    dtwSq A B w = .ok (dtwGrid A B w A.length B.length) := by
  unfold dtwSq
  rw [if_neg, if_neg]
  · simp [hw]
  · push_neg
    exact ⟨length_ne_zero_of_ne_nil hA, length_ne_zero_of_ne_nil hB⟩

lemma dtwDist_ok (A B : List ℚ) (w : Option ℕ) (hA : A ≠ []) (hB : B ≠ [])
    (hw : windowAdmissible w A.length B.length = true) :
    dtwDist A B w =
      .ok (Real.sqrt (((dtwGrid A B w A.length B.length).untop' 0 : ℚ) : ℝ)) := by
  rw [dtwDist, dtwSq_ok A B w hA hB hw]
  rfl

lemma untop_mono_of_ne_top {x y : WithTop ℚ} (hxy : x ≤ y) (hy : y ≠ ⊤) :
    x.untop' 0 ≤ y.untop' 0 := by
  lift y to ℚ using hy
  lift x to ℚ using ne_top_of_le_ne_top WithTop.coe_ne_top hxy
  rw [WithTop.untop'_coe, WithTop.untop'_coe]
  exact_mod_cast hxy

/-- C1: for every pair of non-empty series and every admissible window, the
DTW distance function returns the value of the reference dynamic program:
`D[0][0] = 0`, all other border cells `+infinity`,
`D[i][j] = sqDiff(A[i-1], B[j-1]) + min(D[i-1][j], D[i][j-1], D[i-1][j-1])`
for cells with `|i-j| ≤ w` when a window is set (`+infinity` outside the
window), the final result is `sqrt(D[m][n])`, and the returned value is a
non-negative real number. -/
theorem dtw_matches_reference_dp (A B : List ℚ) (w : Option ℕ)
    (hA : A ≠ []) (hB : B ≠ []) (hw : windowAdmissible w A.length B.length = true) :
    dtwGrid A B w 0 0 = 0 ∧
    (∀ j, dtwGrid A B w 0 (j + 1) = ⊤) ∧
    (∀ i, dtwGrid A B w (i + 1) 0 = ⊤) ∧
    (∀ i j, windowOK w (i + 1) (j + 1) = true →
      dtwGrid A B w (i + 1) (j + 1) =
        (sqDiff (A.getD i 0) (B.getD j 0) : WithTop ℚ) +
          min (dtwGrid A B w i (j + 1))
            (min (dtwGrid A B w (i + 1) j) (dtwGrid A B w i j))) ∧
    (∀ i j, windowOK w (i + 1) (j + 1) = false → dtwGrid A B w (i + 1) (j + 1) = ⊤) ∧
    dtwDist A B w =
      .ok (Real.sqrt (((dtwGrid A B w A.length B.length).untop' 0 : ℚ) : ℝ)) ∧
    (∀ r : ℝ, dtwDist A B w = .ok r → 0 ≤ r) := by
  refine ⟨dtwGrid_zero_zero A B w, dtwGrid_zero_succ A B w, dtwGrid_succ_zero A B w,
    ?_, ?_, dtwDist_ok A B w hA hB hw, ?_⟩
  · intro i j hok
    rw [dtwGrid_succ_succ, if_pos hok]
    rfl
  · intro i j hok
    rw [dtwGrid_succ_succ, if_neg]
    simp [hok]
  · intro r hr
    rw [dtwDist_ok A B w hA hB hw] at hr
    cases hr
    exact Real.sqrt_nonneg _

/-- Witness for C1 at the concrete input `A = [0]`, `B = [1]`, no window. -/
theorem dtw_matches_reference_dp_witness :
    (([(0 : ℚ)] : List ℚ) ≠ [] ∧ ([(1 : ℚ)] : List ℚ) ≠ [] ∧
      windowAdmissible none [(0 : ℚ)].length [(1 : ℚ)].length = true) ∧
    (dtwGrid [(0 : ℚ)] [(1 : ℚ)] none 0 0 = 0 ∧
    (∀ j, dtwGrid [(0 : ℚ)] [(1 : ℚ)] none 0 (j + 1) = ⊤) ∧
    (∀ i, dtwGrid [(0 : ℚ)] [(1 : ℚ)] none (i + 1) 0 = ⊤) ∧
    (∀ i j, windowOK none (i + 1) (j + 1) = true →
      dtwGrid [(0 : ℚ)] [(1 : ℚ)] none (i + 1) (j + 1) =
        (sqDiff (([(0 : ℚ)] : List ℚ).getD i 0) (([(1 : ℚ)] : List ℚ).getD j 0) : WithTop ℚ) +
          min (dtwGrid [(0 : ℚ)] [(1 : ℚ)] none i (j + 1))
            (min (dtwGrid [(0 : ℚ)] [(1 : ℚ)] none (i + 1) j)
              (dtwGrid [(0 : ℚ)] [(1 : ℚ)] none i j))) ∧
    (∀ i j, windowOK none (i + 1) (j + 1) = false →
      dtwGrid [(0 : ℚ)] [(1 : ℚ)] none (i + 1) (j + 1) = ⊤) ∧
    dtwDist [(0 : ℚ)] [(1 : ℚ)] none =
      .ok (Real.sqrt
        (((dtwGrid [(0 : ℚ)] [(1 : ℚ)] none [(0 : ℚ)].length [(1 : ℚ)].length).untop' 0 : ℚ) : ℝ)) ∧
    (∀ r : ℝ, dtwDist [(0 : ℚ)] [(1 : ℚ)] none = .ok r → 0 ≤ r)) :=
  ⟨⟨by simp, by simp, rfl⟩,
    dtw_matches_reference_dp [(0 : ℚ)] [(1 : ℚ)] none (by simp) (by simp) rfl⟩

/-- C4: the DTW distance is symmetric: for every pair of series (including
the validation of empty inputs and of the window constraint) and every
window setting, `distance(A, B) = distance(B, A)`. -/
theorem dtwDist_symm (A B : List ℚ) (w : Option ℕ) : dtwDist B A w = dtwDist A B w := by
  have hsym : dtwGrid B A w B.length A.length = dtwGrid A B w A.length B.length :=
    dtwGrid_symm A B w (A.length + B.length) A.length B.length le_rfl
  have hadm : windowAdmissible w B.length A.length = windowAdmissible w A.length B.length := by
    cases w <;> simp [windowAdmissible, Nat.dist_comm]
  unfold dtwDist dtwSq
  by_cases hA : A.length = 0 <;> by_cases hB : B.length = 0 <;>
    simp [hA, hB, hadm, hsym]

/-- C3: widening the warping window never increases the computed DTW
distance, and the unconstrained distance is the global minimum over all
warping paths. -/
theorem dtw_window_monotone_and_unconstrained_min (A B : List ℚ)
    (hA : A ≠ []) (hB : B ≠ []) :
    (∀ w1 w2 : ℕ, w1 ≤ w2 → windowAdmissible (some w1) A.length B.length = true →
      ∃ r1 r2 : ℝ, dtwDist A B (some w1) = .ok r1 ∧ dtwDist A B (some w2) = .ok r2 ∧
        r2 ≤ r1) ∧
    (∃ p : WPath A.length B.length,
      dtwDist A B none = .ok (Real.sqrt ((p.cost A B : ℚ) : ℝ)) ∧
      ∀ q : WPath A.length B.length, p.cost A B ≤ q.cost A B) := by
  obtain ⟨m, hm⟩ : ∃ m, A.length = m + 1 :=
    ⟨A.length - 1, by have := length_ne_zero_of_ne_nil hA; omega⟩
  obtain ⟨n, hn⟩ : ∃ n, B.length = n + 1 :=
    ⟨B.length - 1, by have := length_ne_zero_of_ne_nil hB; omega⟩
  constructor
  · intro w1 w2 hw12 hadm1
    have hadm2 : windowAdmissible (some w2) A.length B.length = true := by
      simp only [windowAdmissible, decide_eq_true_eq] at hadm1 ⊢
      omega
    refine ⟨_, _, dtwDist_ok A B (some w1) hA hB hadm1,
      dtwDist_ok A B (some w2) hA hB hadm2, ?_⟩
    have hle : dtwGrid A B (some w2) A.length B.length ≤
        dtwGrid A B (some w1) A.length B.length :=
      dtwGrid_window_mono A B hw12 (A.length + B.length) A.length B.length le_rfl
    have hne : dtwGrid A B (some w1) A.length B.length ≠ ⊤ := by
      rw [hm, hn]
      refine dtwGrid_ne_top A B (some w1) (m + 1 + (n + 1)) m n le_rfl ?_
      rw [← hm, ← hn]
      exact hadm1
    have hq : (dtwGrid A B (some w2) A.length B.length).untop' 0 ≤
        (dtwGrid A B (some w1) A.length B.length).untop' 0 :=
      untop_mono_of_ne_top hle hne
    exact Real.sqrt_le_sqrt (by exact_mod_cast hq)
  · rw [hm, hn]
    obtain ⟨p, hp⟩ := exists_wpath_eq_dtwGrid A B (m + 1 + (n + 1)) m n le_rfl
    refine ⟨p, ?_, ?_⟩
    · rw [dtwDist_ok A B none hA hB rfl, hm, hn, ← hp, WithTop.untop'_coe]
    · intro q
      have hq := dtwGrid_le_pathCost A B q
      rw [← hp] at hq
      exact_mod_cast hq

/-- Witness for C3 at the concrete input `A = [0]`, `B = [1]`. -/
theorem dtw_window_monotone_and_unconstrained_min_witness :
    (([(0 : ℚ)] : List ℚ) ≠ [] ∧ ([(1 : ℚ)] : List ℚ) ≠ []) ∧
    ((∀ w1 w2 : ℕ, w1 ≤ w2 →
      windowAdmissible (some w1) [(0 : ℚ)].length [(1 : ℚ)].length = true →
      ∃ r1 r2 : ℝ, dtwDist [(0 : ℚ)] [(1 : ℚ)] (some w1) = .ok r1 ∧
        dtwDist [(0 : ℚ)] [(1 : ℚ)] (some w2) = .ok r2 ∧ r2 ≤ r1) ∧
    (∃ p : WPath [(0 : ℚ)].length [(1 : ℚ)].length,
      dtwDist [(0 : ℚ)] [(1 : ℚ)] none =
        .ok (Real.sqrt ((p.cost [(0 : ℚ)] [(1 : ℚ)] : ℚ) : ℝ)) ∧
      ∀ q : WPath [(0 : ℚ)].length [(1 : ℚ)].length,
        p.cost [(0 : ℚ)] [(1 : ℚ)] ≤ q.cost [(0 : ℚ)] [(1 : ℚ)])) :=
  ⟨⟨by simp, by simp⟩,
    dtw_window_monotone_and_unconstrained_min [(0 : ℚ)] [(1 : ℚ)] (by simp) (by simp)⟩

/-- C7: for non-empty series of lengths `m` and `n`, a warping window
strictly smaller than `|m - n|` is rejected with the window-constraint
error and never yields a numeric distance. -/
theorem dtw_window_too_narrow (A B : List ℚ) (wv : ℕ)
    (hA : A ≠ []) (hB : B ≠ []) (hw : wv < Nat.dist A.length B.length) :
    dtwDist A B (some wv) = .error .windowConstraint ∧
    ∀ r : ℝ, dtwDist A B (some wv) ≠ .ok r := by
  have hna : windowAdmissible (some wv) A.length B.length = false := by
    simp only [windowAdmissible, decide_eq_false_iff_not]
    omega
  have herr : dtwSq A B (some wv) = .error .windowConstraint := by
    unfold dtwSq
    rw [if_neg, if_pos hna]
    push_neg
    exact ⟨length_ne_zero_of_ne_nil hA, length_ne_zero_of_ne_nil hB⟩
  constructor
  · rw [dtwDist, herr]
    rfl
  · intro r hr
    rw [dtwDist, herr] at hr
    exact Except.noConfusion hr

/-- Witness for C7 at `A = [0]`, `B = [1, 2, 3]`, window `1 < |1 - 3|`. -/
theorem dtw_window_too_narrow_witness :
    (([(0 : ℚ)] : List ℚ) ≠ [] ∧ ([1, 2, 3] : List ℚ) ≠ [] ∧
      1 < Nat.dist [(0 : ℚ)].length ([1, 2, 3] : List ℚ).length) ∧
    (dtwDist [(0 : ℚ)] [1, 2, 3] (some 1) = .error .windowConstraint ∧
      ∀ r : ℝ, dtwDist [(0 : ℚ)] [1, 2, 3] (some 1) ≠ .ok r) :=
  ⟨⟨by simp, by simp, by decide⟩,
    dtw_window_too_narrow [(0 : ℚ)] [1, 2, 3] 1 (by simp) (by simp) (by decide)⟩

section ScoreRefs

variable {K : Type}

lemma scoreRefs_length (dist : List ℚ → List ℚ → K) :
    ∀ (refs : List LabeledExample) (i : ℕ) (q : List ℚ),
      (scoreRefs dist refs i q).length = refs.length
  | [], _, _ => rfl
  | _ :: es, i, q => by
    simp [scoreRefs, scoreRefs_length dist es (i + 1) q]

lemma scoreRefs_idx_ge (dist : List ℚ → List ℚ → K) :
    ∀ (refs : List LabeledExample) (i : ℕ) (q : List ℚ),
      ∀ x ∈ scoreRefs dist refs i q, i ≤ x.idx
  | [], _, _ => by simp [scoreRefs]
  | e :: es, i, q => by
    intro x hx
    rw [scoreRefs, List.mem_cons] at hx
    rcases hx with rfl | hx
    · exact le_refl _
    · exact le_trans (Nat.le_succ i) (scoreRefs_idx_ge dist es (i + 1) q x hx)

lemma scoreRefs_pairwise_idx (dist : List ℚ → List ℚ → K) :
    ∀ (refs : List LabeledExample) (i : ℕ) (q : List ℚ),
      (scoreRefs dist refs i q).Pairwise fun a b => a.idx < b.idx
  | [], _, _ => List.Pairwise.nil
  | e :: es, i, q => by
    rw [scoreRefs]
    refine List.Pairwise.cons ?_ (scoreRefs_pairwise_idx dist es (i + 1) q)
    intro x hx
    exact lt_of_lt_of_le (Nat.lt_succ_self i) (scoreRefs_idx_ge dist es (i + 1) q x hx)

lemma scoreRefs_nodup (dist : List ℚ → List ℚ → K) (refs : List LabeledExample)
    (i : ℕ) (q : List ℚ) : (scoreRefs dist refs i q).Nodup :=
  (scoreRefs_pairwise_idx dist refs i q).imp fun h heq => by
    rw [heq] at h
    exact lt_irrefl _ h

lemma scoreRefs_idx_inj (dist : List ℚ → List ℚ → K) (refs : List LabeledExample)
    (i : ℕ) (q : List ℚ) {x y : Scored K} (hx : x ∈ scoreRefs dist refs i q)
    (hy : y ∈ scoreRefs dist refs i q) (hne : x ≠ y) : x.idx ≠ y.idx := by
  have hp : (scoreRefs dist refs i q).Pairwise fun a b => a.idx ≠ b.idx :=
    (scoreRefs_pairwise_idx dist refs i q).imp fun h => Nat.ne_of_lt h
  exact hp.forall (fun a b h => h.symm) hx hy hne

lemma scoreRefs_map_lbl (dist : List ℚ → List ℚ → K) :
    ∀ (refs : List LabeledExample) (i : ℕ) (q : List ℚ),
      (scoreRefs dist refs i q).map Scored.lbl = refs.map LabeledExample.label
  | [], _, _ => rfl
  | e :: es, i, q => by
    simp [scoreRefs, scoreRefs_map_lbl dist es (i + 1) q]

lemma mem_label_of_mem_scoreRefs (dist : List ℚ → List ℚ → K)
    (refs : List LabeledExample) (i : ℕ) (q : List ℚ) {x : Scored K}
    (hx : x ∈ scoreRefs dist refs i q) : x.lbl ∈ refs.map LabeledExample.label := by
  rw [← scoreRefs_map_lbl dist refs i q]
  exact List.mem_map_of_mem Scored.lbl hx

lemma voteCount_scoreRefs (dist : List ℚ → List ℚ → K) :
    ∀ (refs : List LabeledExample) (i : ℕ) (q : List ℚ) (L : ℕ),
      voteCount (scoreRefs dist refs i q) L = labelCount refs L
  | [], _, _, _ => rfl
  | e :: es, i, q, L => by
    have ih := voteCount_scoreRefs dist es (i + 1) q L
    simp only [voteCount, labelCount, scoreRefs, List.filter_cons] at ih ⊢
    by_cases h : e.label = L <;> simp [h, ih]

end ScoreRefs

section Selection

variable {K : Type} [LinearOrder K]

lemma sorted_take_isNearestSelection (dist : List ℚ → List ℚ → K)
    (refs : List LabeledExample) (q : List ℚ) (k : ℕ) :
    IsNearestSelection (scoreRefs dist refs 0 q) k
      ((List.insertionSort keyLE (scoreRefs dist refs 0 q)).take k) := by
  set scored := scoreRefs dist refs 0 q with hscored
  have hperm : List.Perm (List.insertionSort keyLE scored) scored :=
    List.perm_insertionSort _ _
  have hsorted : List.Sorted keyLE (List.insertionSort keyLE scored) :=
    List.sorted_insertionSort _ _
  refine ⟨?_, ?_, ?_, ?_⟩
  · rw [List.length_take, hperm.length_eq]
  · intro x hx
    exact hperm.mem_iff.mp (List.mem_of_mem_take hx)
  · exact (List.take_sublist k _).nodup
      (hperm.nodup_iff.mpr (scoreRefs_nodup dist refs 0 q))
  · intro x hx y hy hyn
    have hysort : y ∈ (List.insertionSort keyLE scored).take k ++
        (List.insertionSort keyLE scored).drop k := by
      rw [List.take_append_drop]
      exact hperm.mem_iff.mpr hy
    rcases List.mem_append.mp hysort with hyt | hyd
    · exact absurd hyt hyn
    have hkey : keyLE x y := hsorted.rel_of_mem_take_of_mem_drop hx hyd
    have hxs : x ∈ scored := hperm.mem_iff.mp (List.mem_of_mem_take hx)
    have hne : x ≠ y := fun h => hyn (h ▸ hx)
    have hidx : x.idx ≠ y.idx := scoreRefs_idx_inj dist refs 0 q hxs hy hne
    rcases hkey with h | ⟨h1, h2⟩
    · exact Or.inl h
    · exact Or.inr ⟨h1, lt_of_le_of_ne h2 hidx⟩

end Selection

section Vote

variable {K : Type} [LinearOrderedField K]

lemma voteBeats_irrefl (refs : List LabeledExample) (nbrs : List (Scored K)) (a : ℕ) :
    ¬ VoteBeats refs nbrs a a := by
  rintro (h | ⟨-, h | ⟨-, h⟩⟩) <;> exact lt_irrefl _ h

lemma voteBeats_trans (refs : List LabeledExample) (nbrs : List (Scored K)) {a b c : ℕ}
    (hab : VoteBeats refs nbrs a b) (hbc : VoteBeats refs nbrs b c) :
    VoteBeats refs nbrs a c := by
  unfold VoteBeats at hab hbc ⊢
  rcases hab with h1 | ⟨e1, h1⟩ <;> rcases hbc with h2 | ⟨e2, h2⟩
  · exact Or.inl (lt_trans h2 h1)
  · exact Or.inl (by rw [← e2]; exact h1)
  · exact Or.inl (by rw [e1]; exact h2)
  · refine Or.inr ⟨e1.trans e2, ?_⟩
    rcases h1 with h1 | ⟨f1, g1⟩ <;> rcases h2 with h2 | ⟨f2, g2⟩
    · exact Or.inl (lt_trans h1 h2)
    · exact Or.inl (by rw [← f2]; exact h1)
    · exact Or.inl (by rw [f1]; exact h2)
    · exact Or.inr ⟨f1.trans f2, lt_trans g1 g2⟩

lemma voteBeats_conn (refs : List LabeledExample) (nbrs : List (Scored K)) (a b : ℕ) :
    VoteBeats refs nbrs a b ∨ VoteBeats refs nbrs b a ∨
      (voteCount nbrs a = voteCount nbrs b ∧ avgDist nbrs a = avgDist nbrs b ∧
        firstIdxOf refs a = firstIdxOf refs b) := by
  unfold VoteBeats
  rcases lt_trichotomy (voteCount nbrs a) (voteCount nbrs b) with h | h | h
  · exact Or.inr (Or.inl (Or.inl h))
  · rcases lt_trichotomy (avgDist nbrs a) (avgDist nbrs b) with h2 | h2 | h2
    · exact Or.inl (Or.inr ⟨h, Or.inl h2⟩)
    · rcases lt_trichotomy (firstIdxOf refs a) (firstIdxOf refs b) with h3 | h3 | h3
      · exact Or.inl (Or.inr ⟨h, Or.inr ⟨h2, h3⟩⟩)
      · exact Or.inr (Or.inr ⟨h, h2, h3⟩)
      · exact Or.inr (Or.inl (Or.inr ⟨h.symm, Or.inr ⟨h2.symm, h3⟩⟩))
    · exact Or.inr (Or.inl (Or.inr ⟨h.symm, Or.inl h2⟩))
  · exact Or.inl (Or.inl h)

lemma voteBeats_negtrans (refs : List LabeledExample) (nbrs : List (Scored K))
    {a b c : ℕ} (hab : ¬ VoteBeats refs nbrs a b) (hbc : ¬ VoteBeats refs nbrs b c) :
    ¬ VoteBeats refs nbrs a c := by
  intro hac
  rcases voteBeats_conn refs nbrs b a with h | h | h
  · exact hbc (voteBeats_trans refs nbrs h hac)
  · exact hab h
  · obtain ⟨h1, h2, h3⟩ := h
    apply hbc
    unfold VoteBeats at hac ⊢
    rw [h1, h2, h3]
    exact hac

lemma pickLabel_cons (lt : ℕ → ℕ → Prop) [DecidableRel lt] (c x : ℕ) (cs : List ℕ) :
    pickLabel lt c (x :: cs) = pickLabel lt (if lt x c then x else c) cs := rfl

lemma pickLabel_mem (lt : ℕ → ℕ → Prop) [DecidableRel lt] :
    ∀ (cs : List ℕ) (c : ℕ), pickLabel lt c cs ∈ c :: cs
  | [], c => by simp [pickLabel]
  | x :: cs, c => by
    rw [pickLabel_cons]
    rcases List.mem_cons.mp (pickLabel_mem lt cs (if lt x c then x else c)) with h | h
    · rw [h]
      by_cases hx : lt x c <;> simp [hx]
    · exact List.mem_cons_of_mem _ (List.mem_cons_of_mem _ h)

lemma pickLabel_not_beaten (lt : ℕ → ℕ → Prop) [DecidableRel lt]
    (hirr : ∀ a, ¬ lt a a)
    (htr : ∀ {a b c}, lt a b → lt b c → lt a c)
    (hneg : ∀ {a b c}, ¬ lt a b → ¬ lt b c → ¬ lt a c) :
    ∀ (cs : List ℕ) (c : ℕ), ∀ y ∈ c :: cs, ¬ lt y (pickLabel lt c cs)
  | [], c => by
    intro y hy
    rw [List.mem_singleton] at hy
    subst hy
    simpa [pickLabel] using hirr y
  | x :: cs, c => by
    intro y hy
    rw [pickLabel_cons]
    have hrec := pickLabel_not_beaten lt hirr htr hneg cs (if lt x c then x else c)
    by_cases hx : lt x c
    · rw [if_pos hx] at hrec ⊢
      rcases List.mem_cons.mp hy with rfl | hy'
      · have hcx : ¬ lt y x := fun hcx => hirr x (htr hx hcx)
        exact hneg hcx (hrec x (List.mem_cons_self _ _))
      · rcases List.mem_cons.mp hy' with rfl | hy''
        · exact hrec y (List.mem_cons_self _ _)
        · exact hrec y (List.mem_cons_of_mem _ hy'')
    · rw [if_neg hx] at hrec ⊢
      rcases List.mem_cons.mp hy with rfl | hy'
      · exact hrec y (List.mem_cons_self _ _)
      · rcases List.mem_cons.mp hy' with rfl | hy''
        · exact hneg hx (hrec c (List.mem_cons_self _ _))
        · exact hrec y (List.mem_cons_of_mem _ hy'')

lemma firstIdxOf_inj (refs : List LabeledExample) {L M : ℕ}
    (hL : L ∈ refs.map LabeledExample.label) (hM : M ∈ refs.map LabeledExample.label)
    (h : firstIdxOf refs L = firstIdxOf refs M) : L = M := by
  obtain ⟨e1, he1, rfl⟩ := List.mem_map.mp hL
  obtain ⟨e2, he2, rfl⟩ := List.mem_map.mp hM
  have hlt1 : firstIdxOf refs e1.label < refs.length :=
    List.findIdx_lt_length_of_exists ⟨e1, he1, by simp⟩
  have hlt2 : firstIdxOf refs e2.label < refs.length :=
    List.findIdx_lt_length_of_exists ⟨e2, he2, by simp⟩
  have h1 := List.findIdx_getElem (w := hlt1)
  have h2 := List.findIdx_getElem (w := hlt2)
  simp only [decide_eq_true_eq] at h1 h2
  unfold firstIdxOf at h
  simp only [h] at h1
  exact h1.symm.trans h2

lemma electLabel_isVoteWinner (refs : List LabeledExample) (nbrs : List (Scored K))
    (hne : nbrs ≠ [])
    (hlbl : ∀ x ∈ nbrs, x.lbl ∈ refs.map LabeledExample.label) :
    IsVoteWinner refs nbrs (electLabel refs nbrs) := by
  rcases hcands : (nbrs.map Scored.lbl).dedup with - | ⟨c, cs⟩
  · rw [List.dedup_eq_nil, List.map_eq_nil_iff] at hcands
    exact absurd hcands hne
  have hL : electLabel refs nbrs = pickLabel (VoteBeats refs nbrs) c cs := by
    unfold electLabel
    rw [hcands]
  have hmemd : electLabel refs nbrs ∈ (nbrs.map Scored.lbl).dedup := by
    rw [hcands, hL]
    exact pickLabel_mem _ cs c
  have hmem : electLabel refs nbrs ∈ nbrs.map Scored.lbl := List.mem_dedup.mp hmemd
  refine ⟨hmem, ?_⟩
  intro M hM hMne
  have hMc : M ∈ c :: cs := by
    rw [← hcands]
    exact List.mem_dedup.mpr hM
  have hnb : ¬ VoteBeats refs nbrs M (electLabel refs nbrs) := by
    rw [hL]
    exact pickLabel_not_beaten (VoteBeats refs nbrs) (voteBeats_irrefl refs nbrs)
      (voteBeats_trans refs nbrs) (voteBeats_negtrans refs nbrs) cs c M hMc
  rcases voteBeats_conn refs nbrs (electLabel refs nbrs) M with h | h | h
  · exact h
  · exact absurd h hnb
  · obtain ⟨-, -, h3⟩ := h
    have hLlbl : electLabel refs nbrs ∈ refs.map LabeledExample.label := by
      obtain ⟨x, hx, hxe⟩ := List.mem_map.mp hmem
      rw [← hxe]
      exact hlbl x hx
    have hMlbl : M ∈ refs.map LabeledExample.label := by
      obtain ⟨x, hx, hxe⟩ := List.mem_map.mp hM
      rw [← hxe]
      exact hlbl x hx
    exact absurd (firstIdxOf_inj refs hMlbl hLlbl h3.symm) hMne

lemma neighbors_length (dist : List ℚ → List ℚ → K) (refs : List LabeledExample)
    (k : ℕ) (q : List ℚ) : (neighbors dist refs k q).length = min k refs.length := by
  rw [neighbors, List.length_take, (List.perm_insertionSort _ _).length_eq,
    scoreRefs_length]

lemma neighbors_subset_scored (dist : List ℚ → List ℚ → K) (refs : List LabeledExample)
    (k : ℕ) (q : List ℚ) :
    ∀ x ∈ neighbors dist refs k q, x ∈ scoreRefs dist refs 0 q := by
  intro x hx
  exact (List.perm_insertionSort keyLE _).mem_iff.mp
    (List.mem_of_mem_take hx)

lemma neighbors_ne_nil (dist : List ℚ → List ℚ → K) (refs : List LabeledExample)
    (k : ℕ) (q : List ℚ) (hrefs : refs ≠ []) (hk : 1 ≤ k) :
    neighbors dist refs k q ≠ [] := by
  intro h
  have hlen := neighbors_length dist refs k q
  rw [h] at hlen
  have hr : refs.length ≠ 0 := length_ne_zero_of_ne_nil hrefs
  simp only [List.length_nil] at hlen
  omega

lemma classify_isVoteWinner (dist : List ℚ → List ℚ → K) (refs : List LabeledExample)
    (k : ℕ) (q : List ℚ) (hrefs : refs ≠ []) (hk : 1 ≤ k) :
    IsVoteWinner refs (neighbors dist refs k q) (classify dist refs k q) := by
  rw [classify]
  refine electLabel_isVoteWinner refs _ (neighbors_ne_nil dist refs k q hrefs hk) ?_
  intro x hx
  exact mem_label_of_mem_scoreRefs dist refs 0 q (neighbors_subset_scored dist refs k q x hx)

lemma fit_ok_inv (c0 c : KNeighborsTimeSeriesClassifier)
    (examples : List LabeledExample) (k : ℕ) (h : fit c0 examples k = .ok c) :
    c = ⟨some ⟨examples, k⟩⟩ ∧ examples ≠ [] ∧ 1 ≤ k ∧ k ≤ examples.length := by
  unfold fit at h
  by_cases hcond : examples = [] ∨ k < 1 ∨ examples.length < k
  · rw [if_pos hcond] at h
    exact absurd h (by simp)
  · rw [if_neg hcond] at h
    push_neg at hcond
    obtain ⟨h1, h2, h3⟩ := hcond
    cases h
    exact ⟨rfl, h1, by omega, by omega⟩

lemma predict_fitted (dist : List ℚ → List ℚ → K) (st : FittedState) (q : List ℚ)
    (hq : q ≠ []) :
    predict dist ⟨some st⟩ q = .ok (classify dist st.refs st.k q) := by
  simp [predict, hq]

end Vote

/-- C2: for every fitted classifier and every non-empty query series,
`predict` succeeds with the label elected by exactly the `k` reference
examples of smallest distance (distance ties broken by insertion order,
first seen wins), the elected label having the highest vote count among the
selected neighbors, with vote ties broken by smallest average distance and
then by earliest first occurrence in the reference set; the result is a pure
function of its inputs, hence deterministic.  Proved for every distance
function valued in a linear ordered field, the spec's DTW distance (§4.1)
being the intended instance. -/
theorem predict_selects_nearest_and_elects {K : Type} [LinearOrderedField K]
    (dist : List ℚ → List ℚ → K) (c0 c : KNeighborsTimeSeriesClassifier)
    (examples : List LabeledExample) (k : ℕ) (q : List ℚ)
    (hfit : fit c0 examples k = .ok c) (hq : q ≠ []) :
    ∃ (sel : List (Scored K)) (L : ℕ),
      predict dist c q = .ok L ∧
      IsNearestSelection (scoreRefs dist examples 0 q) k sel ∧
      IsVoteWinner examples sel L := by
  obtain ⟨rfl, hne, hk1, hkn⟩ := fit_ok_inv c0 c examples k hfit
  refine ⟨neighbors dist examples k q, classify dist examples k q, ?_, ?_, ?_⟩
  · exact predict_fitted dist ⟨examples, k⟩ q hq
  · exact sorted_take_isNearestSelection dist examples q k
  · exact classify_isVoteWinner dist examples k q hne hk1

/-- Witness for C2: one reference example, `k = 1`, query `[1]`, constant
distance. -/
theorem predict_selects_nearest_and_elects_witness :
    (fit ⟨none⟩ [⟨[0], 0⟩] 1 =
        .ok (⟨some ⟨[⟨[0], 0⟩], 1⟩⟩ : KNeighborsTimeSeriesClassifier) ∧
      ([(1 : ℚ)] : List ℚ) ≠ []) ∧
    ∃ (sel : List (Scored ℚ)) (L : ℕ),
      predict (fun _ _ => (0 : ℚ)) ⟨some ⟨[⟨[0], 0⟩], 1⟩⟩ [(1 : ℚ)] = .ok L ∧
      IsNearestSelection (scoreRefs (fun _ _ => (0 : ℚ)) [⟨[0], 0⟩] 0 [(1 : ℚ)]) 1 sel ∧
      IsVoteWinner [⟨[0], 0⟩] sel L :=
  ⟨⟨rfl, by simp⟩,
    predict_selects_nearest_and_elects (fun _ _ => (0 : ℚ)) ⟨none⟩
      ⟨some ⟨[⟨[0], 0⟩], 1⟩⟩ [⟨[0], 0⟩] 1 [(1 : ℚ)] rfl (by simp)⟩

/-- C5: when `k` equals the size of the reference set, `predict` returns the
(unique) plurality label of the entire reference set, for every non-empty
query and every distance function. -/
theorem predict_full_k_returns_majority {K : Type} [LinearOrderedField K]
    (dist : List ℚ → List ℚ → K) (c0 c : KNeighborsTimeSeriesClassifier)
    (examples : List LabeledExample) (k L : ℕ) (q : List ℚ)
    (hfit : fit c0 examples k = .ok c) (hk : k = examples.length)
    (hL : L ∈ examples.map LabeledExample.label)
    (hmaj : ∀ M ∈ examples.map LabeledExample.label, M ≠ L →
      labelCount examples M < labelCount examples L)
    (hq : q ≠ []) :
    predict dist c q = .ok L := by
  obtain ⟨rfl, hne, hk1, hkn⟩ := fit_ok_inv c0 c examples k hfit
  rw [predict_fitted dist ⟨examples, k⟩ q hq]
  suffices h : classify dist examples k q = L by rw [h]
  set nbrs := neighbors dist examples k q with hnb
  have hperm : List.Perm nbrs (scoreRefs dist examples 0 q) := by
    rw [hnb, neighbors, List.take_of_length_le]
    · exact List.perm_insertionSort _ _
    · rw [(List.perm_insertionSort keyLE _).length_eq, scoreRefs_length]
      omega
  have hcnt : ∀ M, voteCount nbrs M = labelCount examples M := by
    intro M
    unfold voteCount
    rw [(hperm.filter _).length_eq]
    exact voteCount_scoreRefs dist examples 0 q M
  have hlblperm : List.Perm (nbrs.map Scored.lbl) (examples.map LabeledExample.label) := by
    rw [← scoreRefs_map_lbl dist examples 0 q]
    exact hperm.map _
  have hwin := classify_isVoteWinner dist examples k q hne hk1
  by_contra hc
  have hLmem : L ∈ nbrs.map Scored.lbl := hlblperm.mem_iff.mpr hL
  have hbeats := hwin.2 L hLmem (fun h => hc h.symm)
  have hCmem : classify dist examples k q ∈ examples.map LabeledExample.label :=
    hlblperm.mem_iff.mp hwin.1
  have hmaj' := hmaj _ hCmem hc
  rcases hbeats with hb | ⟨hb, -⟩
  · rw [hcnt, hcnt] at hb
    omega
  · rw [hcnt, hcnt] at hb
    omega

/-- Witness for C5: three references with plurality label `7`, `k = 3`,
query `[99]`, constant distance. -/
theorem predict_full_k_returns_majority_witness :
    (fit ⟨none⟩ [⟨[0], 7⟩, ⟨[10], 7⟩, ⟨[100], 5⟩] 3 =
        .ok (⟨some ⟨[⟨[0], 7⟩, ⟨[10], 7⟩, ⟨[100], 5⟩], 3⟩⟩ :
          KNeighborsTimeSeriesClassifier) ∧
      3 = ([⟨[0], 7⟩, ⟨[10], 7⟩, ⟨[100], 5⟩] : List LabeledExample).length ∧
      7 ∈ ([⟨[0], 7⟩, ⟨[10], 7⟩, ⟨[100], 5⟩] : List LabeledExample).map
        LabeledExample.label ∧
      (∀ M ∈ ([⟨[0], 7⟩, ⟨[10], 7⟩, ⟨[100], 5⟩] : List LabeledExample).map
          LabeledExample.label, M ≠ 7 →
        labelCount [⟨[0], 7⟩, ⟨[10], 7⟩, ⟨[100], 5⟩] M <
          labelCount [⟨[0], 7⟩, ⟨[10], 7⟩, ⟨[100], 5⟩] 7) ∧
      ([(99 : ℚ)] : List ℚ) ≠ []) ∧
    predict (fun _ _ => (0 : ℚ)) ⟨some ⟨[⟨[0], 7⟩, ⟨[10], 7⟩, ⟨[100], 5⟩], 3⟩⟩
      [(99 : ℚ)] = .ok 7 :=
  ⟨⟨rfl, by decide, by decide, by decide, by simp⟩,
    predict_full_k_returns_majority (fun _ _ => (0 : ℚ)) ⟨none⟩
      ⟨some ⟨[⟨[0], 7⟩, ⟨[10], 7⟩, ⟨[100], 5⟩], 3⟩⟩
      [⟨[0], 7⟩, ⟨[10], 7⟩, ⟨[100], 5⟩] 3 7 [(99 : ℚ)]
      rfl (by decide) (by decide) (by decide) (by simp)⟩

/-- C8: `fit` fails with `InvalidInput` exactly when `k` exceeds the number
of examples, or `k < 1`, or the example collection is empty (label-type
consistency is enforced by the typed label domain, so it cannot fail in the
model); on success the classifier holds the examples as its reference set
and `1 ≤ k ≤ `number of examples. -/
theorem fit_validation (c : KNeighborsTimeSeriesClassifier)
    (examples : List LabeledExample) (k : ℕ) :
    (fit c examples k = .error .invalidInput ↔
      (examples.length < k ∨ k < 1 ∨ examples = [])) ∧
    ∀ c', fit c examples k = .ok c' →
      c'.fitted = some ⟨examples, k⟩ ∧ 1 ≤ k ∧ k ≤ examples.length := by
  constructor
  · constructor
    · intro h
      by_cases hcond : examples = [] ∨ k < 1 ∨ examples.length < k
      · tauto
      · unfold fit at h
        rw [if_neg hcond] at h
        exact absurd h (by simp)
    · intro h
      unfold fit
      rw [if_pos (by tauto)]
  · intro c' h
    obtain ⟨hc, -, h2, h3⟩ := fit_ok_inv c c' examples k h
    rw [hc]
    exact ⟨rfl, h2, h3⟩

/-- Witness for C8: fitting with `k = 3` on a 2-example collection is
`InvalidInput`. -/
theorem fit_validation_witness :
    fit ⟨none⟩ [⟨[0], 0⟩, ⟨[1], 1⟩] 3 = .error .invalidInput :=
  (fit_validation ⟨none⟩ [⟨[0], 0⟩, ⟨[1], 1⟩] 3).1.mpr (Or.inl (by decide))

/-- C9: `predict`, single or batch (with at least one query), on a
classifier on which no `fit` has succeeded fails with `NotFittedError` for
every query series; prediction is a pure function of the classifier value
and cannot change its state. -/
theorem predict_unfitted_fails {K : Type} [LinearOrderedField K]
    (dist : List ℚ → List ℚ → K) (c : KNeighborsTimeSeriesClassifier)
    (hc : c.fitted = none) (q : List ℚ) (qs : List (List ℚ)) (hqs : qs ≠ []) :
    predict dist c q = .error .notFitted ∧
    predictBatch dist c qs = .error .notFitted := by
  have hp : ∀ r : List ℚ, predict dist c r = .error .notFitted := by
    intro r
    unfold predict
    rw [hc]
  refine ⟨hp q, ?_⟩
  cases qs with
  | nil => exact absurd rfl hqs
  | cons r rs =>
    unfold predictBatch
    rw [hp r]

/-- Witness for C9 at the never-fitted classifier, query `[1]`, batch
`[[1]]`. -/
theorem predict_unfitted_fails_witness :
    ((⟨none⟩ : KNeighborsTimeSeriesClassifier).fitted = none ∧
      ([[(1 : ℚ)]] : List (List ℚ)) ≠ []) ∧
    (predict (fun _ _ => (0 : ℚ)) ⟨none⟩ [(1 : ℚ)] = .error .notFitted ∧
      predictBatch (fun _ _ => (0 : ℚ)) ⟨none⟩ [[(1 : ℚ)]] = .error .notFitted) :=
  ⟨⟨rfl, by simp⟩,
    predict_unfitted_fails (fun _ _ => (0 : ℚ)) ⟨none⟩ rfl [(1 : ℚ)] [[(1 : ℚ)]]
      (by simp)⟩

/-- C6: empty series are rejected with `InvalidInput` rather than producing
a degenerate result: the DTW distance fails when either input is empty (in
particular `distance([], [1,2,3])` is `InvalidInput` and never a numeric
value), and `predict` on a fitted classifier fails with `InvalidInput` on an
empty query series. -/
theorem empty_inputs_rejected {K : Type} [LinearOrderedField K]
    (dist : List ℚ → List ℚ → K) (A B : List ℚ) (w : Option ℕ)
    (c : KNeighborsTimeSeriesClassifier) (st : FittedState)
    (hc : c.fitted = some st) :
    dtwDist [] B w = .error .invalidInput ∧
    dtwDist A [] w = .error .invalidInput ∧
    dtwDist [] [1, 2, 3] w = .error .invalidInput ∧
    (∀ r : ℝ, dtwDist [] [1, 2, 3] w ≠ .ok r) ∧
    predict dist c [] = .error .invalidInput := by
  have h1 : ∀ X : List ℚ, dtwSq [] X w = .error .invalidInput := by
    intro X
    unfold dtwSq
    rw [if_pos (show ([] : List ℚ).length = 0 ∨ X.length = 0 from Or.inl rfl)]
  have h2 : dtwSq A [] w = .error .invalidInput := by
    unfold dtwSq
    rw [if_pos (show A.length = 0 ∨ ([] : List ℚ).length = 0 from Or.inr rfl)]
  refine ⟨?_, ?_, ?_, ?_, ?_⟩
  · rw [dtwDist, h1]
    rfl
  · rw [dtwDist, h2]
    rfl
  · rw [dtwDist, h1]
    rfl
  · intro r hr
    rw [dtwDist, h1] at hr
    exact Except.noConfusion hr
  · unfold predict
    rw [hc]
    simp

/-- Witness for C6 at a concrete fitted classifier and concrete series. -/
theorem empty_inputs_rejected_witness :
    ((⟨some ⟨[⟨[0], 0⟩], 1⟩⟩ : KNeighborsTimeSeriesClassifier).fitted =
      some ⟨[⟨[0], 0⟩], 1⟩) ∧
    (dtwDist [] [(5 : ℚ)] none = .error .invalidInput ∧
      dtwDist [(7 : ℚ)] [] none = .error .invalidInput ∧
      dtwDist [] [1, 2, 3] none = .error .invalidInput ∧
      (∀ r : ℝ, dtwDist [] [1, 2, 3] none ≠ .ok r) ∧
      predict (fun _ _ => (0 : ℚ)) ⟨some ⟨[⟨[0], 0⟩], 1⟩⟩ [] =
        .error .invalidInput) :=
  ⟨rfl,
    empty_inputs_rejected (fun _ _ => (0 : ℚ)) [(7 : ℚ)] [(5 : ℚ)] none
      ⟨some ⟨[⟨[0], 0⟩], 1⟩⟩ ⟨[⟨[0], 0⟩], 1⟩ rfl⟩

lemma indicator_sum_eq_countP (l : List (ℕ × ℕ)) :
    (l.map fun p => if p.1 = p.2 then (1 : ℚ) else 0).sum =
      ((l.countP fun p => p.1 = p.2 : ℕ) : ℚ) := by
  induction l with
  | nil => simp
  | cons x xs ih =>
    rw [List.map_cons, List.sum_cons, ih, List.countP_cons]
    by_cases h : x.1 = x.2
    · simp [h]
      ring
    · simp [h]

lemma countP_zip_comm (preds trues : List ℕ) :
    ((trues.zip preds).countP fun p => p.1 = p.2) =
      ((preds.zip trues).countP fun p => p.1 = p.2) := by
  induction preds generalizing trues with
  | nil => cases trues <;> simp
  | cons x xs ih =>
    cases trues with
    | nil => simp
    | cons y ys =>
      simp only [List.zip_cons_cons, List.countP_cons, ih ys]
      rcases eq_or_ne x y with rfl | h
      · simp
      · have h' : y ≠ x := fun hyx => h hyx.symm
        simp [h, h']

/-- C10: the delegated scoring utility (sklearn's `accuracy_score` over true
and predicted label sequences) computes the same value as the §4.4 reference
definition of score: for equal-length sequences both return the fraction of
positions where prediction equals truth, a value in `[0, 1]`; sequences of
differing count are an `InvalidInput` error. -/
theorem accuracy_score_refines_score (preds trues : List ℕ) :
    (preds.length = trues.length →
      ∃ v : ℚ, accuracy_score trues preds = .ok v ∧
        scoreAccuracy preds trues = .ok v ∧ 0 ≤ v ∧ v ≤ 1 ∧
        v = (((preds.zip trues).countP fun p => p.1 = p.2 : ℕ) : ℚ) /
          (preds.length : ℚ)) ∧
    (preds.length ≠ trues.length →
      accuracy_score trues preds = .error .invalidInput ∧
      scoreAccuracy preds trues = .error .invalidInput) := by
  constructor
  · intro hlen
    have hcle : ((preds.zip trues).countP fun p => p.1 = p.2) ≤ preds.length := by
      have := List.countP_le_length (l := preds.zip trues)
        (p := fun p => decide (p.1 = p.2))
      rw [List.length_zip] at this
      omega
    refine ⟨(((preds.zip trues).countP fun p => p.1 = p.2 : ℕ) : ℚ) /
      (preds.length : ℚ), ?_, ?_, ?_, ?_, rfl⟩
    · rw [accuracy_score, if_neg (by omega)]
      rw [indicator_sum_eq_countP, countP_zip_comm, ← hlen]
    · rw [scoreAccuracy, if_neg (by omega)]
    · positivity
    · rcases Nat.eq_zero_or_pos preds.length with h0 | h0
      · rw [h0]
        simp
      · rw [div_le_one (by exact_mod_cast h0)]
        exact_mod_cast hcle
  · intro hlen
    constructor
    · rw [accuracy_score, if_pos (by omega)]
    · rw [scoreAccuracy, if_pos hlen]

/-- Witness for C10 at predictions `[1, 2, 4]` against truth `[1, 2, 3]`
(and for the mismatch branch, at lengths 1 versus 0). -/
theorem accuracy_score_refines_score_witness :
    (∃ v : ℚ, accuracy_score [1, 2, 3] [1, 2, 4] = .ok v ∧
      scoreAccuracy [1, 2, 4] [1, 2, 3] = .ok v ∧ 0 ≤ v ∧ v ≤ 1 ∧
      v = (((([1, 2, 4] : List ℕ).zip [1, 2, 3]).countP fun p => p.1 = p.2 : ℕ) : ℚ) /
        (([1, 2, 4] : List ℕ).length : ℚ)) ∧
    (accuracy_score [] [(1 : ℕ)] = .error .invalidInput ∧
      scoreAccuracy [(1 : ℕ)] [] = .error .invalidInput) :=
  ⟨(accuracy_score_refines_score [1, 2, 4] [1, 2, 3]).1 (by decide),
    (accuracy_score_refines_score [(1 : ℕ)] []).2 (by decide)⟩

end DtwKnn
